import Mathlib

/-!
Verification of the `hface_ai_agent` repository: a shallow embedding of the
answer-normalization logic of `agents/gemini_agent.py` and
`agents/openai_agent.py` (`_clean_answer`), the batch runner of `app.py`,
the tool adapters (`tools/file_tools.py`, `tools/db_tools.py`,
`tools/search_tools.py`) and the FEN builder of `tools/chess_recognition.py`.

Python strings are modelled as `List Char`; the modelled character set is
ASCII (the whitespace class and case folding agree with Python on ASCII).
-/

namespace HfAgent

/-! ## Python string primitives -/

/-- Python whitespace class for `str.strip` and the regex class `\s`,
restricted to ASCII. -/
def pyIsSpace (c : Char) : Bool :=
  c = ' ' || c = '\t' || c = '\n' || c = '\r' || c = '\x0b' || c = '\x0c'

/-- Drop the whitespace at the end of a list of characters. -/
def dropEndSpace (l : List Char) : List Char :=
  (l.reverse.dropWhile pyIsSpace).reverse

/-- Python `str.strip()` with no argument: remove whitespace at both ends. -/
def pyStrip (l : List Char) : List Char :=
  dropEndSpace (l.dropWhile pyIsSpace)

/-! ## The metadata scrub (the four `re.sub` calls)

`_clean_answer` first runs four substitutions of the shape
`re.sub(r'LIT={.*?}', '', answer)` (and one with quotes instead of braces).
Each pattern is a literal opener followed by a lazy run of non-newline
characters up to a closing character; `re.sub` removes every non-overlapping
leftmost match. -/

/-- Scan for the closing character of a lazy `.*?` group: return the
remainder after the first occurrence of `cl`, failing at a newline or at the
end (the regex `.` does not match a newline). -/
def findClose (cl : Char) : List Char → Option (List Char)
  | [] => none
  | c :: cs => if c = cl then some cs else if c = '\n' then none else findClose cl cs

theorem findClose_length {cl : Char} : ∀ {l r : List Char},
    findClose cl l = some r → r.length < l.length := by
  intro l
  induction l with
  | nil => intro r h; simp [findClose] at h
  | cons c cs ih =>
    intro r h
    unfold findClose at h
    split at h
    · cases h
      exact Nat.lt_succ_self _
    · split at h
      · exact absurd h (by simp)
      · exact Nat.lt_trans (ih h) (Nat.lt_succ_self _)

/-- One `re.sub(openP ++ lazy-to-cl, '', ·)` pass: remove every
non-overlapping leftmost match of the pattern.  Each recursive call strictly
shortens the scanned list (`findClose_length`), so running with the length
of the input as fuel never exhausts the fuel on a non-empty list. -/
def subLazyGo (openP : List Char) (cl : Char) : Nat → List Char → List Char
  | 0, l => l
  | _ + 1, [] => []
  | fuel + 1, c :: cs =>
    if openP.isPrefixOf (c :: cs) then
      match findClose cl ((c :: cs).drop openP.length) with
      | some rest => subLazyGo openP cl fuel rest
      | none => c :: subLazyGo openP cl fuel cs
    else c :: subLazyGo openP cl fuel cs

/-- One `re.sub` pass of one lazy pattern, at full fuel. -/
def subLazy (openP : List Char) (cl : Char) (l : List Char) : List Char :=
  subLazyGo openP cl l.length l

/-- The metadata scrub: the four `re.sub` calls of `_clean_answer`, in
source order. -/
def scrub (l : List Char) : List Char :=
  subLazy (String.toList ("usage_metadata=\x7b")) '\x7d'
    (subLazy (String.toList ("id=\x27")) '\x27'
      (subLazy (String.toList ("response_metadata=\x7b")) '\x7d'
        (subLazy (String.toList ("additional_kwargs=\x7b")) '\x7d' l)))

/-! ## Extraction of the final answer

`re.search(r'FINAL ANSWER:\s*(.*?)(?:\n|$)', answer, re.IGNORECASE)`:
the leftmost case-insensitive occurrence of the literal label, then a greedy
run of whitespace (which may cross line breaks), then a lazy run of
non-newline characters that ends at the next newline or at the end of the
input.  `_clean_answer` keeps `group(1).strip()`. -/

/-- The label searched for, lower-cased. -/
def markerL : List Char := String.toList ("final answer:")

/-- Leftmost case-insensitive occurrence of `FINAL ANSWER:`; returns the
remainder after the label. -/
def findMarker : List Char → Option (List Char)
  | [] => none
  | c :: cs =>
    if markerL.isPrefixOf ((c :: cs).map Char.toLower) then
      some ((c :: cs).drop markerL.length)
    else findMarker cs

/-- The stripped capture group of the `FINAL ANSWER` regex, when the label
occurs. -/
def extractFinal (l : List Char) : Option (List Char) :=
  (findMarker l).map fun rest =>
    pyStrip ((rest.dropWhile pyIsSpace).takeWhile (fun c => c ≠ '\n'))

/-! ## The fallback line scan -/

/-- The boilerplate openers skipped by the backward line scan
(`line.startswith((...))` in the source, checked on the stripped line). -/
def openersL : List (List Char) :=
  [String.toList ("The answer is"), String.toList ("Answer:"),
   String.toList ("Final answer:"), String.toList ("The result is")]

/-- A stripped line is selected when it is non-empty and starts with none of
the boilerplate openers. -/
def goodLine (t : List Char) : Bool :=
  !t.isEmpty && openersL.all (fun p => !(p.isPrefixOf t))

/-- The loop `for line in reversed(lines): line = line.strip(); if line and
not line.startswith((...)): answer = line; break`, applied to the already
reversed line list. -/
def pickLine : List (List Char) → Option (List Char)
  | [] => none
  | ln :: rest =>
    let t := pyStrip ln
    if goodLine t then some t else pickLine rest

/-- The whole no-marker branch: split the stripped text into lines, scan
backward; when no line qualifies the working answer keeps its prior value. -/
def fallback (l : List Char) : List Char :=
  match pickLine ((pyStrip l).splitOn '\n').reverse with
  | some t => t
  | none => l

/-! ## Prefix stripping and quote unwrapping -/

/-- The list `prefixes_to_remove`, in source order. -/
def prefixesToRemove : List (List Char) :=
  [String.toList ("The answer is "), String.toList ("Answer: "),
   String.toList ("Final answer: "), String.toList ("The result is "),
   String.toList ("To answer this question: "),
   String.toList ("Based on the information provided, "),
   String.toList ("According to the information: ")]

/-- One iteration of `for prefix in prefixes_to_remove: if
answer.startswith(prefix): answer = answer[len(prefix):].strip()`. -/
def stripStep (a p : List Char) : List Char :=
  if p.isPrefixOf a then pyStrip (a.drop p.length) else a

/-- The whole prefix-stripping loop. -/
def stripChecked (l : List Char) : List Char :=
  prefixesToRemove.foldl stripStep l

/-- The condition of the quote-unwrapping step: the answer starts and ends
with `"`, or starts and ends with `\x27`. -/
def quoteWrapped (l : List Char) : Bool :=
  (decide (l.head? = some '"') && decide (l.getLast? = some '"')) ||
  (decide (l.head? = some '\x27') && decide (l.getLast? = some '\x27'))

/-- The step `if (answer.startswith('"') and answer.endswith('"')) or ...:
answer = answer[1:-1].strip()`. -/
def unquote (l : List Char) : List Char :=
  if quoteWrapped l then pyStrip (l.drop 1).dropLast else l

/-! ## The whole normalizer

`_clean_answer` of both agent classes, starting from the string case of the
dynamic-type dispatch (the claims quantify over string inputs). -/

/-- The whole `_clean_answer` on a string input, as a function on character lists. -/
def cleanAnswerL (l : List Char) : List Char :=
  let scrubbed := scrub l
  let working :=
    match extractFinal scrubbed with
    | some g => g
    | none => fallback scrubbed
  pyStrip (unquote (stripChecked working))

/-- The whole `_clean_answer` on a string input. -/
def cleanAnswerS (s : String) : String :=
  String.mk (cleanAnswerL s.toList)

/-! ## Lemmas about the string primitives -/

theorem dropWhile_dropWhile (p : α → Bool) (l : List α) :
    (l.dropWhile p).dropWhile p = l.dropWhile p := by
  induction l with
  | nil => rfl
  | cons a as ih =>
    by_cases h : p a
    · simpa [List.dropWhile_cons, h] using ih
    · simp [List.dropWhile_cons, h]

theorem head_false_of_dropWhile_eq {p : α → Bool} {a : α} {as : List α}
    (h : (a :: as).dropWhile p = a :: as) : p a = false := by
  by_contra hp
  have hpa : p a = true := by revert hp; cases p a <;> simp
  rw [List.dropWhile_cons_of_pos hpa] at h
  have hle := (List.dropWhile_suffix (l := as) p).length_le
  rw [h] at hle
  simp at hle

theorem dropEndSpace_prefixOf (l : List Char) : dropEndSpace l <+: l := by
  have hs : l.reverse.dropWhile pyIsSpace <:+ l.reverse := List.dropWhile_suffix _
  have hs2 : ((l.reverse.dropWhile pyIsSpace).reverse).reverse <:+ l.reverse := by
    simpa using hs
  simpa [dropEndSpace] using List.reverse_suffix.mp hs2

theorem dropEndSpace_dropEndSpace (l : List Char) :
    dropEndSpace (dropEndSpace l) = dropEndSpace l := by
  simp [dropEndSpace, dropWhile_dropWhile]

theorem dropWhile_dropEndSpace {l : List Char}
    (h : l.dropWhile pyIsSpace = l) :
    (dropEndSpace l).dropWhile pyIsSpace = dropEndSpace l := by
  rcases he : dropEndSpace l with _ | ⟨a, as⟩
  · rfl
  · obtain ⟨t, ht⟩ := dropEndSpace_prefixOf l
    rw [he] at ht
    have hl : l = a :: (as ++ t) := by simpa using ht.symm
    have hfa : pyIsSpace a = false := by
      rw [hl] at h
      exact head_false_of_dropWhile_eq h
    simp [List.dropWhile_cons, hfa]

theorem pyStrip_idem (l : List Char) : pyStrip (pyStrip l) = pyStrip l := by
  unfold pyStrip
  rw [dropWhile_dropEndSpace (dropWhile_dropWhile _ _), dropEndSpace_dropEndSpace]

/-! ## Lemmas about the fallback line scan -/

theorem pickLine_eq_find (rls : List (List Char)) :
    pickLine rls = (rls.map pyStrip).find? goodLine := by
  induction rls with
  | nil => rfl
  | cons ln rest ih =>
    by_cases h : goodLine (pyStrip ln)
    · simp [pickLine, h, List.find?]
    · simpa [pickLine, h, List.find?] using ih

theorem stripStep_of_none {a p : List Char} (h : p.isPrefixOf a = false) :
    stripStep a p = a := by
  simp [stripStep, h]

/-! ## The trace of the prefix-stripping loop -/

/-- The prefix-stripping loop, instrumented with the list of prefixes it
actually removed. -/
def stripTrace : List Char → List (List Char) → List Char × List (List Char)
  | a, [] => (a, [])
  | a, p :: ps =>
    if p.isPrefixOf a then
      let r := stripTrace (pyStrip (a.drop p.length)) ps
      (r.1, p :: r.2)
    else stripTrace a ps

theorem stripTrace_fst (a : List Char) (ps : List (List Char)) :
    (stripTrace a ps).1 = ps.foldl stripStep a := by
  induction ps generalizing a with
  | nil => rfl
  | cons p ps ih =>
    by_cases h : p.isPrefixOf a
    · simp [stripTrace, h, List.foldl_cons, stripStep, ih]
    · simp [stripTrace, h, List.foldl_cons, stripStep, ih]

theorem stripTrace_sublist (a : List Char) (ps : List (List Char)) :
    (stripTrace a ps).2.Sublist ps := by
  induction ps generalizing a with
  | nil => simp [stripTrace]
  | cons p ps ih =>
    by_cases h : p.isPrefixOf a
    · simpa [stripTrace, h] using List.Sublist.cons₂ p (ih _)
    · exact List.Sublist.trans (by simpa [stripTrace, h] using ih a)
        (List.sublist_cons_self p ps)

/-- Claim-side reading of C1 (for comparison with the code): the trimmed
text following the marker up to the end of that line, with no later
processing. -/
def specMarkerLineRemainder (l : List Char) : Option (List Char) :=
  (findMarker l).map fun rest => pyStrip (rest.takeWhile (fun c => c ≠ '\n'))

/-- C1 counterexample: on the input `FINAL ANSWER: "Paris"` the trimmed text
following the marker up to the end of the line is `"Paris"` (with quotes),
but the normalizer returns `Paris`: the quote-unwrapping step still runs
after the extraction, so the claim's exact-remainder contract fails. -/
theorem claimC1_counterexample :
    cleanAnswerS ("FINAL ANSWER: \"Paris\"") = "Paris" ∧
    specMarkerLineRemainder (String.toList ("FINAL ANSWER: \"Paris\"")) =
      some (String.toList ("\"Paris\"")) ∧
    String.toList ("Paris") ≠ String.toList ("\"Paris\"") := by
  refine ⟨by decide, by decide, by decide⟩

/-- C1 (amended): when the cleaned text contains the (case-insensitive)
label `FINAL ANSWER:`, the normalizer takes as working answer the trimmed
text that follows the label — skipping whitespace even across line breaks —
up to the end of that line, and returns it after boilerplate-prefix
stripping, quote unwrapping and a final trim; on the claim's example the
result is exactly `Paris`. -/
theorem claimC1_marker_extraction (s : String) (rest : List Char)
    (h : findMarker (scrub s.toList) = some rest) :
    cleanAnswerS s = String.mk (pyStrip (unquote (stripChecked
      (pyStrip ((rest.dropWhile pyIsSpace).takeWhile (fun c => c ≠ '\n')))))) ∧
    cleanAnswerS ("blah blah\nFINAL ANSWER: Paris\n") = "Paris" := by
  constructor
  · simp only [cleanAnswerS, cleanAnswerL, extractFinal, h, Option.map_some']
  · decide

/-- Witness for C1 at the claim's own example input. -/
theorem claimC1_marker_extraction_witness :
    cleanAnswerS ("blah blah\nFINAL ANSWER: Paris\n") =
      String.mk (pyStrip (unquote (stripChecked
        (pyStrip (((String.toList (" Paris\n")).dropWhile pyIsSpace).takeWhile
          (fun c => c ≠ '\n')))))) ∧
    cleanAnswerS ("blah blah\nFINAL ANSWER: Paris\n") = "Paris" :=
  claimC1_marker_extraction ("blah blah\nFINAL ANSWER: Paris\n")
    (String.toList (" Paris\n")) (by decide)

/-- C2 counterexample: the normalizer is not idempotent.  Normalizing
`Answer: Answer: 42` yields `Answer: 42` (the single-line fallback keeps the
whole text, then one boilerplate prefix is stripped), and normalizing that
output again yields `42`. -/
theorem claimC2_counterexample :
    cleanAnswerS (cleanAnswerS ("Answer: Answer: 42")) ≠
      cleanAnswerS ("Answer: Answer: 42") := by
  decide

/-- C2 (amended): re-normalizing returns an answer unchanged provided it is
a single line that survives every stage: no metadata pattern, no
(case-insensitive) `FINAL ANSWER:` label, already trimmed, no boilerplate
prefix and no wrapping quotes.  Outputs that still carry a prefix or quotes
(possible, since each stripping stage runs only once) do change on a second
pass. -/
theorem claimC2_conditional_idempotence (l : List Char)
    (hscrub : scrub l = l)
    (hmark : findMarker l = none)
    (hline : '\n' ∉ l)
    (hstrip : pyStrip l = l)
    (hpre : ∀ p ∈ prefixesToRemove, p.isPrefixOf l = false)
    (hq : quoteWrapped l = false) :
    cleanAnswerL l = l := by
  have hsplit : l.splitOn '\n' = [l] := by
    have hnone : ∀ x ∈ l, ¬((x == '\n') = true) := by
      intro x hx hbeq
      exact hline (eq_of_beq hbeq ▸ hx)
    simpa [List.splitOn] using
      List.splitOnP_eq_single (fun x => x == '\n') l hnone
  have hfall : fallback l = l := by
    unfold fallback
    rw [hstrip, hsplit]
    by_cases hg : goodLine l
    · simp [pickLine, hstrip, hg]
    · simp [pickLine, hstrip, hg]
  have h1 := hpre (String.toList ("The answer is ")) (by simp [prefixesToRemove])
  have h2 := hpre (String.toList ("Answer: ")) (by simp [prefixesToRemove])
  have h3 := hpre (String.toList ("Final answer: ")) (by simp [prefixesToRemove])
  have h4 := hpre (String.toList ("The result is ")) (by simp [prefixesToRemove])
  have h5 := hpre (String.toList ("To answer this question: "))
    (by simp [prefixesToRemove])
  have h6 := hpre (String.toList ("Based on the information provided, "))
    (by simp [prefixesToRemove])
  have h7 := hpre (String.toList ("According to the information: "))
    (by simp [prefixesToRemove])
  have hstripc : stripChecked l = l := by
    unfold stripChecked prefixesToRemove
    rw [List.foldl_cons, stripStep_of_none h1, List.foldl_cons, stripStep_of_none h2,
        List.foldl_cons, stripStep_of_none h3, List.foldl_cons, stripStep_of_none h4,
        List.foldl_cons, stripStep_of_none h5, List.foldl_cons, stripStep_of_none h6,
        List.foldl_cons, stripStep_of_none h7, List.foldl_nil]
  have hex : extractFinal l = none := by simp [extractFinal, hmark]
  simp only [cleanAnswerL, hscrub, hex, hfall, hstripc, unquote, hq,
    Bool.false_eq_true, if_false]
  exact hstrip

/-- Witness for the amended C2 at the already-normalized answer `42`. -/
theorem claimC2_conditional_idempotence_witness :
    cleanAnswerL (String.toList ("42")) = String.toList ("42") :=
  claimC2_conditional_idempotence (String.toList ("42")) (by decide) (by decide)
    (by decide) (by decide) (by decide) (by decide)

set_option maxHeartbeats 1000000 in
/-- C3 counterexample: the prefix-stripping loop can remove TWO distinct
prefixes in one pass.  On `The answer is Answer: 42` it yields `42`, which
is neither the input itself nor the input with a single listed prefix
removed (the only applicable single removal gives `Answer: 42`). -/
theorem claimC3_counterexample :
    stripChecked (String.toList ("The answer is Answer: 42")) =
      String.toList ("42") ∧
    String.toList ("42") ≠ String.toList ("The answer is Answer: 42") ∧
    prefixesToRemove.all
      (fun p => !(stripStep (String.toList ("The answer is Answer: 42")) p ==
        String.toList ("42"))) = true := by
  refine ⟨by decide, by decide, by decide⟩

/-- C3 (amended): the prefixes are checked once each in the fixed source
order, so each listed prefix is removed at most once (`Answer: Answer: 42`
becomes `Answer: 42`), but several distinct prefixes can be removed in one
pass (`The answer is Answer: 42` becomes `42`).  The instrumented loop
records the removed prefixes as a duplicate-free in-order sublist of the
fixed list. -/
theorem claimC3_prefix_removal (a : List Char) :
    (stripTrace a prefixesToRemove).1 = stripChecked a ∧
    (stripTrace a prefixesToRemove).2.Sublist prefixesToRemove ∧
    (stripTrace a prefixesToRemove).2.Nodup ∧
    stripChecked (String.toList ("Answer: Answer: 42")) =
      String.toList ("Answer: 42") := by
  refine ⟨stripTrace_fst a prefixesToRemove, stripTrace_sublist a prefixesToRemove,
    List.Nodup.sublist (stripTrace_sublist a prefixesToRemove) (by decide),
    by decide⟩

/-- C4 counterexample: the normalizer can return the empty string on a
non-empty input — a whitespace-only input strips to nothing. -/
theorem claimC4_counterexample :
    cleanAnswerS (" ") = "" ∧ (" " : String) ≠ "" := by
  refine ⟨by decide, by decide⟩

/-- C4 (amended): the normalizer is a total function of the input string
(the embedding terminates on every input and raises nothing) and its result
is always already trimmed; but it may be empty even when the input was not. -/
theorem claimC4_total_trimmed (l : List Char) :
    pyStrip (cleanAnswerL l) = cleanAnswerL l := by
  simp only [cleanAnswerL]
  exact pyStrip_idem _

/-- C5 counterexample: the quote-unwrapping step does not remove ONLY the
outer quote pair — it also trims the unwrapped content, so `" 42 "` (with
quotes) becomes `42`, not ` 42 `. -/
theorem claimC5_counterexample :
    unquote (String.toList ("\" 42 \"")) = String.toList ("42") ∧
    ((String.toList ("\" 42 \"")).drop 1).dropLast = String.toList (" 42 ") ∧
    String.toList ("42") ≠ String.toList (" 42 ") := by
  refine ⟨by decide, by decide, by decide⟩

/-- C5 (amended): the quote-unwrapping step fires exactly when the working
answer both starts and ends with the same quote character (`"` or the ASCII
apostrophe), and then removes that one outer pair and trims the unwrapped
content; a string with a quote at only one end is untouched.  The claim's
examples behave as stated. -/
theorem claimC5_quote_unwrapping (l : List Char) :
    (unquote l = if ∃ q ∈ ['"', '\x27'], l.head? = some q ∧ l.getLast? = some q
      then pyStrip ((l.drop 1).dropLast) else l) ∧
    unquote (String.toList ("\"42\"")) = String.toList ("42") ∧
    unquote (String.toList ("\x27paris\x27")) = String.toList ("paris") ∧
    unquote (String.toList ("\"42")) = String.toList ("\"42") := by
  refine ⟨?_, by decide, by decide, by decide⟩
  have hcond : quoteWrapped l = true ↔
      ∃ q ∈ ['"', '\x27'], l.head? = some q ∧ l.getLast? = some q := by
    simp [quoteWrapped]
  by_cases h : quoteWrapped l
  · rw [unquote, if_pos h, if_pos (hcond.mp h)]
  · rw [unquote, if_neg h, if_neg (fun hc => h (hcond.mpr hc))]

/-- C6: when the cleaned text has no `FINAL ANSWER:` label, the working
answer is the first line — scanning the stripped lines from the last one
backward — that is non-empty and starts with none of the four boilerplate
openers (case-sensitive prefix check on the stripped line, which is also the
value selected); if no line qualifies, the working answer keeps its prior
value, the whole cleaned text, and the later prefix/quote/trim steps then
apply to that. -/
theorem claimC6_fallback_selection (s : String)
    (h : findMarker (scrub s.toList) = none) :
    cleanAnswerL s.toList = pyStrip (unquote (stripChecked
      (((((pyStrip (scrub s.toList)).splitOn '\n').reverse.map pyStrip).find?
        goodLine).getD (scrub s.toList)))) := by
  have hex : extractFinal (scrub s.toList) = none := by
    unfold extractFinal
    rw [h]
    rfl
  have hfall : fallback (scrub s.toList) =
      (((((pyStrip (scrub s.toList)).splitOn '\n').reverse.map pyStrip).find?
        goodLine).getD (scrub s.toList)) := by
    unfold fallback
    rw [pickLine_eq_find]
    rcases hf : (((pyStrip (scrub s.toList)).splitOn '\n').reverse.map pyStrip).find?
      goodLine with _ | t
    · rfl
    · rfl
  simp only [cleanAnswerL, hex, hfall]

/-- Witness for C6 on the spec's fallback example: the last line starts with
a skip-opener, so the scan walks back and selects `Some reasoning`. -/
theorem claimC6_fallback_selection_witness :
    cleanAnswerL (String.toList ("Some reasoning\nThe answer is 99")) =
      pyStrip (unquote (stripChecked
        (((((pyStrip (scrub (String.toList ("Some reasoning\nThe answer is 99")))).splitOn
          '\n').reverse.map pyStrip).find? goodLine).getD
            (scrub (String.toList ("Some reasoning\nThe answer is 99")))))) :=
  claimC6_fallback_selection ("Some reasoning\nThe answer is 99") (by decide)

/-! ## answer_question of both agent classes

The model invocation (`agent.run` / `agent.invoke` inside
`_run_agent_with_retry`) is external; it is modelled as an oracle giving
the outcome of each attempt.  Python exceptions are modelled with
`Except`: a raised exception is `Except.error`, so a function whose result
is always `Except.ok` never propagates one. -/

/-- The exception types that matter to the two retry decorators; the catch
of `answer_question` handles every one of them.  The message carried by
`retryError` stands for the textual repr tenacity gives a `RetryError`. -/
inductive PyErr where
  | resourceExhausted (msg : String)
  | apiError (msg : String)
  | rateLimitError (msg : String)
  | apiTimeoutError (msg : String)
  | otherError (msg : String)
  | retryError (inner : PyErr)
deriving DecidableEq

/-- Python `str(e)` on the modelled exceptions. -/
def pyErrStr : PyErr → String
  | .resourceExhausted m => m
  | .apiError m => m
  | .rateLimitError m => m
  | .apiTimeoutError m => m
  | .otherError m => m
  | .retryError e => "RetryError[" ++ pyErrStr e ++ "]"

/-- The policy `retry_if_exception_type(ResourceExhausted)` of the Gemini agent. -/
def geminiRetryable : PyErr → Bool
  | .resourceExhausted _ => true
  | _ => false

/-- The policy `retry_if_exception_type((APIError, RateLimitError, APITimeoutError))`
of the OpenAI agent. -/
def openaiRetryable : PyErr → Bool
  | .apiError _ => true
  | .rateLimitError _ => true
  | .apiTimeoutError _ => true
  | _ => false

/-- The tenacity retry loop: attempt `k`; retry a retryable failure while
attempts remain; at exhaustion raise the bare exception under
`reraise=True`, else a `RetryError`; a non-retryable failure propagates at
once. -/
def runRetryGo (retryable : PyErr → Bool) (reraise : Bool)
    (oracle : Nat → Except PyErr String) : Nat → Nat → Except PyErr String
  | _, 0 => .error (.retryError (.otherError ("no attempts configured")))
  | k, rem + 1 =>
    match oracle k with
    | .ok r => .ok r
    | .error e =>
      if retryable e then
        if rem = 0 then .error (if reraise then e else .retryError e)
        else runRetryGo retryable reraise oracle (k + 1) rem
      else .error e

/-- The prompt built by `answer_question`: the question plus the attached
file note when a (truthy) task file path is given. -/
def promptOf (question : String) (taskFilePath : Option String) : String :=
  question ++
    match taskFilePath with
    | some p => if p = "" then "" else "\nAttached file path: " ++ p ++ "\n"
    | none => ""

/-- The body of `answer_question`: run the agent with retry inside the `try`, clean the
answer, and convert any escaping exception into an `"Error: ..."` string.
Parameterized by the retry policy so that it covers both agent classes. -/
def answerQuestionE (retryable : PyErr → Bool) (reraise : Bool)
    (maxAttempts : Nat) (question : String) (taskFilePath : Option String)
    (oracle : String → Nat → Except PyErr String) : Except PyErr String :=
  match runRetryGo retryable reraise (oracle (promptOf question taskFilePath))
      0 maxAttempts with
  | .ok response => .ok (cleanAnswerS response)
  | .error e => .ok ("Error: " ++ pyErrStr e)

/-- Model of `EnhancedGAIAAgent.answer_question`: 5 attempts, retry on
`ResourceExhausted`, no reraise. -/
def geminiAnswerQuestion (question : String) (taskFilePath : Option String)
    (oracle : String → Nat → Except PyErr String) : Except PyErr String :=
  answerQuestionE geminiRetryable false 5 question taskFilePath oracle

/-- Model of `EnhancedOpenAIAgent.answer_question`: 3 attempts, retry on the OpenAI
API errors, `reraise=True`. -/
def openaiAnswerQuestion (question : String) (taskFilePath : Option String)
    (oracle : String → Nat → Except PyErr String) : Except PyErr String :=
  answerQuestionE openaiRetryable true 3 question taskFilePath oracle

/-! ## The batch runner of app.py -/

/-- A JSON value in a question record: either Python `None` or a string. -/
inductive PyVal where
  | pyNone
  | pyStr (s : String)
deriving DecidableEq

/-- A fetched question record; `none` in a field means the key is absent
(`dict.get` then yields Python `None`). -/
structure QRecord where
  task_id : Option PyVal
  question : Option PyVal
  file_name : Option PyVal
deriving DecidableEq

/-- Python truthiness of the modelled values (`not task_id`). -/
def pyFalsy : PyVal → Bool
  | .pyNone => true
  | .pyStr s => s = ""

/-- Python `item.get(key)`. -/
def getVal (f : Option PyVal) : PyVal := f.getD .pyNone

/-- The check `required_keys.issubset(q)` of `load_questions_from_file`. -/
def hasRequiredKeys (q : QRecord) : Bool :=
  q.task_id.isSome && q.question.isSome && q.file_name.isSome

/-- The validation step of `load_questions_from_file` (the success branch
returns the data; the failure branch the error message). -/
def loadQuestionsValidate (data : List QRecord) :
    Except String (List QRecord) :=
  if data.all hasRequiredKeys then .ok data
  else .error ("Error: Some questions are missing required fields.")

/-- The guard `if not task_id or question_text is None: continue` of the run loop. -/
def skipRecord (it : QRecord) : Bool :=
  pyFalsy (getVal it.task_id) || (getVal it.question == .pyNone)

/-- The per-question loop of `run_and_submit_all`: build the answers
payload, skipping records with a missing/empty `task_id` or a missing
`question`; the answering itself is abstracted by `answer`. -/
def processQuestions (answer : PyVal → String) :
    List QRecord → List (PyVal × String)
  | [] => []
  | it :: rest =>
    if skipRecord it then processQuestions answer rest
    else (getVal it.task_id, answer (getVal it.question)) ::
      processQuestions answer rest

theorem processQuestions_eq_filterMap (answer : PyVal → String)
    (items : List QRecord) :
    processQuestions answer items = items.filterMap fun it =>
      if skipRecord it then none
      else some (getVal it.task_id, answer (getVal it.question)) := by
  induction items with
  | nil => rfl
  | cons it rest ih =>
    by_cases h : skipRecord it
    · simp [processQuestions, h, List.filterMap_cons, ih]
    · simp [processQuestions, h, List.filterMap_cons, ih]

/-! ## Tool adapters

The adapters wrap external effects (filesystem, sqlite, the arXiv loader);
each effect is modelled as an oracle giving its outcome, and a raised
exception is an `Except.error` as above. -/

/-- Outcome of `open(filepath).read()`. -/
inductive FileReadOutcome where
  | fileContent (s : String)
  | fileNotFound
  | otherFault (msg : String)
deriving DecidableEq

/-- Adapter `read_file` of `tools/file_tools.py`: returns the content, or an error
string naming the path; never propagates the fault. -/
def read_file (filepath : String) (o : FileReadOutcome) : String :=
  match o with
  | .fileContent s => s
  | .fileNotFound => "Error: File not found at " ++ filepath
  | .otherFault m => "Error reading file " ++ filepath ++ ": " ++ m

/-- Adapter `read_from_db` of `tools/db_tools.py`: the rows of the query, with a
fault encoded as the single pseudo-row `("Error", str(e))`.  Its result is
a list of tuples, not a string — as its own annotation declares. -/
def read_from_db (o : Except String (List (List String))) :
    List (List String) :=
  match o with
  | .ok rows => rows
  | .error m => [["Error", m]]

/-- A document returned by `ArxivLoader.load()`: the `page` metadata entry
(defaulted to the empty string) and the page content. -/
structure ArxivDoc where
  page : String
  pageContent : String
deriving DecidableEq

/-- The f-string applied to each document by `arvix_search`. -/
def formatArxivDoc (d : ArxivDoc) : String :=
  "page=\"" ++ d.page ++ "\"/>\n" ++ d.pageContent.take 1000 ++ "\n</Document>"

/-- The dict literal `arvix_search` returns on success. -/
structure ArvixResult where
  arvix_results : String
deriving DecidableEq

/-- Adapter `arvix_search` of `tools/search_tools.py`: it has NO try/except, so a
fault of the loader propagates; on success it returns a dict, not a
string. -/
def arvix_search (o : Except String (List ArxivDoc)) :
    Except String ArvixResult :=
  o.map fun docs =>
    ⟨String.intercalate ("\n\n---\n\n") (docs.map formatArxivDoc)⟩

/-- Substring check (Python `in`). -/
def containsSub (needle : List Char) : List Char → Bool
  | [] => needle.isEmpty
  | c :: cs => needle.isPrefixOf (c :: cs) || containsSub needle cs

theorem containsSub_append_self (needle : List Char) :
    ∀ pre : List Char, containsSub needle (pre ++ needle) = true := by
  intro pre
  induction pre with
  | nil =>
    cases needle with
    | nil => rfl
    | cons c cs =>
      simp only [List.nil_append, containsSub]
      rw [List.isPrefixOf_iff_prefix.mpr (List.prefix_refl _)]
      rfl
  | cons x xs ih =>
    show (needle.isPrefixOf (x :: (xs ++ needle)) ||
      containsSub needle (xs ++ needle)) = true
    rw [ih, Bool.or_true]

theorem containsSub_nil : ∀ hay : List Char, containsSub [] hay = true
  | [] => rfl
  | _ :: cs => by
    show (List.isPrefixOf [] _ || containsSub [] cs) = true
    rw [containsSub_nil cs]
    simp [List.isPrefixOf]

theorem containsSub_mono_append (needle : List Char) :
    ∀ hay post : List Char, containsSub needle hay = true →
      containsSub needle (hay ++ post) = true := by
  intro hay
  induction hay with
  | nil =>
    intro post h
    have : needle = [] := by
      cases needle
      · rfl
      · simp [containsSub] at h
    subst this
    exact containsSub_nil post
  | cons c cs ih =>
    intro post h
    rcases Bool.or_eq_true_iff.mp h with hpre | hrest
    · have hp : needle <+: (c :: cs) := List.isPrefixOf_iff_prefix.mp hpre
      have : needle <+: (c :: cs) ++ post := hp.trans (List.prefix_append _ _)
      show (needle.isPrefixOf (c :: (cs ++ post)) || _) = true
      rw [List.isPrefixOf_iff_prefix.mpr (by simpa using this)]
      rfl
    · show (needle.isPrefixOf (c :: (cs ++ post)) ||
        containsSub needle (cs ++ post)) = true
      rw [ih post hrest, Bool.or_true]

theorem containsSub_middle (needle pre post : List Char) :
    containsSub needle (pre ++ needle ++ post) = true :=
  containsSub_mono_append needle (pre ++ needle) post
    (containsSub_append_self needle pre)

/-- C7: on any exception escaping the (modelled) agent run — a
non-retryable failure, or a retryable one after retry exhaustion —
`answer_question` of both agent classes returns the string
`Error: <message>` wrapped in a normal return (`Except.ok`), so no
exception reaches the caller. -/
theorem claimC7_error_stringified (q : String) (path : Option String)
    (oracle : String → Nat → Except PyErr String) (eg eo : PyErr)
    (hg : runRetryGo geminiRetryable false (oracle (promptOf q path)) 0 5 =
      .error eg)
    (ho : runRetryGo openaiRetryable true (oracle (promptOf q path)) 0 3 =
      .error eo) :
    geminiAnswerQuestion q path oracle =
      Except.ok ("Error: " ++ pyErrStr eg) ∧
    openaiAnswerQuestion q path oracle =
      Except.ok ("Error: " ++ pyErrStr eo) ∧
    (geminiAnswerQuestion q path oracle).isOk = true ∧
    (openaiAnswerQuestion q path oracle).isOk = true := by
  have hgem : geminiAnswerQuestion q path oracle =
      Except.ok ("Error: " ++ pyErrStr eg) := by
    unfold geminiAnswerQuestion answerQuestionE
    rw [hg]
  have hopen : openaiAnswerQuestion q path oracle =
      Except.ok ("Error: " ++ pyErrStr eo) := by
    unfold openaiAnswerQuestion answerQuestionE
    rw [ho]
  exact ⟨hgem, hopen, by rw [hgem]; rfl, by rw [hopen]; rfl⟩

/-- Witness for C7: a model that always raises.  The Gemini agent retries
a quota error five times and then catches the tenacity `RetryError`; the
OpenAI agent does not retry quota errors and catches the bare exception. -/
theorem claimC7_error_stringified_witness :
    geminiAnswerQuestion ("q") none
        (fun _ _ => .error (.resourceExhausted ("quota"))) =
      Except.ok ("Error: " ++
        pyErrStr (.retryError (.resourceExhausted ("quota")))) ∧
    openaiAnswerQuestion ("q") none
        (fun _ _ => .error (.resourceExhausted ("quota"))) =
      Except.ok ("Error: " ++ pyErrStr (.resourceExhausted ("quota"))) ∧
    (geminiAnswerQuestion ("q") none
        (fun _ _ => .error (.resourceExhausted ("quota")))).isOk = true ∧
    (openaiAnswerQuestion ("q") none
        (fun _ _ => .error (.resourceExhausted ("quota")))).isOk = true :=
  claimC7_error_stringified ("q") none
    (fun _ _ => .error (.resourceExhausted ("quota")))
    (.retryError (.resourceExhausted ("quota")))
    (.resourceExhausted ("quota")) (by rfl) (by rfl)

/-- C8 counterexample: a fetched batch whose second record lacks `task_id`
is NOT rejected as a whole — the run loop of `run_and_submit_all` skips
only the bad record and still processes and submits the first question. -/
theorem claimC8_counterexample :
    processQuestions (fun _ => "A")
      [⟨some (.pyStr ("t1")), some (.pyStr ("q1")), some (.pyStr (""))⟩,
       ⟨none, some (.pyStr ("q2")), some (.pyStr (""))⟩] =
      [(.pyStr ("t1"), "A")] ∧
    hasRequiredKeys ⟨none, some (.pyStr ("q2")), some (.pyStr (""))⟩ =
      false := by
  exact ⟨rfl, rfl⟩

/-- C8 (amended): only the local-file loader rejects a whole batch with an
explicit error when a record misses one of the three required keys; the
main run loop instead skips records with a missing (or empty) `task_id` or
a missing `question` one by one and processes all the others. -/
theorem claimC8_loader_rejects_loop_skips (answer : PyVal → String)
    (data : List QRecord) (q : QRecord) (hq : q ∈ data)
    (hmiss : hasRequiredKeys q = false) :
    loadQuestionsValidate data =
      .error ("Error: Some questions are missing required fields.") ∧
    processQuestions answer data = data.filterMap (fun it =>
      if skipRecord it then none
      else some (getVal it.task_id, answer (getVal it.question))) := by
  constructor
  · have hall : data.all hasRequiredKeys = false := by
      cases hall : data.all hasRequiredKeys
      · rfl
      · exact absurd (List.all_eq_true.mp hall q hq) (by simp [hmiss])
    simp [loadQuestionsValidate, hall]
  · exact processQuestions_eq_filterMap answer data

/-- Witness for the amended C8 at the two-record batch of the
counterexample. -/
theorem claimC8_loader_rejects_loop_skips_witness :
    loadQuestionsValidate
      [⟨some (.pyStr ("t1")), some (.pyStr ("q1")), some (.pyStr (""))⟩,
       ⟨none, some (.pyStr ("q2")), some (.pyStr (""))⟩] =
      .error ("Error: Some questions are missing required fields.") ∧
    processQuestions (fun _ => "A")
      [⟨some (.pyStr ("t1")), some (.pyStr ("q1")), some (.pyStr (""))⟩,
       ⟨none, some (.pyStr ("q2")), some (.pyStr (""))⟩] =
      ([⟨some (.pyStr ("t1")), some (.pyStr ("q1")), some (.pyStr (""))⟩,
        ⟨none, some (.pyStr ("q2")), some (.pyStr (""))⟩] :
          List QRecord).filterMap (fun it =>
        if skipRecord it then none
        else some (getVal it.task_id, (fun _ => "A") (getVal it.question))) :=
  claimC8_loader_rejects_loop_skips (fun _ => "A")
    [⟨some (.pyStr ("t1")), some (.pyStr ("q1")), some (.pyStr (""))⟩,
     ⟨none, some (.pyStr ("q2")), some (.pyStr (""))⟩]
    ⟨none, some (.pyStr ("q2")), some (.pyStr (""))⟩
    (by decide) (by decide)

/-- C9 counterexample: `arvix_search` has no exception handling, so a
fault raised by the arXiv loader propagates to the caller instead of being
returned as an `"Error: ..."` string; and `read_from_db` encodes a fault
as the row list `[("Error", msg)]`, not as a string. -/
theorem claimC9_counterexample :
    arvix_search (.error ("ConnectionError: arxiv.org unreachable")) =
      .error ("ConnectionError: arxiv.org unreachable") ∧
    read_from_db (.error ("db locked")) = [["Error", "db locked"]] := by
  exact ⟨rfl, rfl⟩

/-- C9 (amended): the file-reading adapter catches every fault and returns
an error string that contains the requested path (in particular for a
nonexistent path); `read_from_db` never raises but returns a list of row
tuples, encoding faults as `[("Error", msg)]`; `arvix_search` wraps its
success in a one-field dict and propagates loader faults unhandled. -/
theorem claimC9_adapter_outcomes (p m s e : String)
    (rows : List (List String)) (docs : List ArxivDoc) :
    read_file p .fileNotFound = "Error: File not found at " ++ p ∧
    containsSub p.toList (read_file p .fileNotFound).toList = true ∧
    containsSub p.toList (read_file p (.otherFault m)).toList = true ∧
    read_file p (.fileContent s) = s ∧
    read_from_db (.ok rows) = rows ∧
    read_from_db (.error m) = [["Error", m]] ∧
    arvix_search (.error e) = .error e ∧
    arvix_search (.ok docs) =
      .ok ⟨String.intercalate ("\n\n---\n\n") (docs.map formatArxivDoc)⟩ := by
  refine ⟨rfl, ?_, ?_, rfl, rfl, rfl, rfl, rfl⟩
  · show containsSub p.toList (("Error: File not found at " ++ p)).toList = true
    have : (("Error: File not found at " ++ p)).toList =
        ("Error: File not found at ").toList ++ p.toList :=
      String.data_append _ _
    rw [this]
    exact containsSub_append_self p.toList _
  · show containsSub p.toList
      (("Error reading file " ++ p ++ ": " ++ m)).toList = true
    have : (("Error reading file " ++ p ++ ": " ++ m)).toList =
        ("Error reading file ").toList ++ p.toList ++
          ((": " ++ m)).toList := by
      show (("Error reading file " ++ p ++ ": " ++ m)).data =
        ("Error reading file ").data ++ p.data ++ ((": " ++ m)).data
      rw [String.data_append, String.data_append, String.data_append]
      simp [List.append_assoc]
    rw [this]
    exact containsSub_middle p.toList _ _

/-! ## chess_board_recognition (tools/chess_recognition.py)

The detector output is external; what the code does with it is: map each
detection label through `label_map` (defaulting to `"?"`), compute integer
cell coordinates, drop detections outside the 8×8 board, and serialize the
board in FEN row syntax.  Detections are modelled after the coordinate
arithmetic, as a label with the two integer cell indices
`int(center // cell_size)` — the FEN shape does not depend on how those
integers were obtained. -/

/-- The values of `label_map`, in key order `0..11`. -/
def pieceChars : List Char :=
  ['P', 'N', 'B', 'R', 'Q', 'K', 'p', 'n', 'b', 'r', 'q', 'k']

/-- Python `label_map.get(label.item(), "?")`. -/
def labelMap (n : Nat) : Char := (pieceChars.get? n).getD '?'

/-- One detection after the coordinate arithmetic. -/
structure Detection where
  label : Nat
  row : Int
  col : Int
deriving DecidableEq

/-- The 8×8 board of piece characters; an empty cell is `none`. -/
abbrev Board := List (List (Option Char))

/-- The grid `board = [["" for _ in range(8)] for _ in range(8)]`. -/
def initBoard : Board :=
  List.replicate 8 (List.replicate 8 (none : Option Char))

/-- In-place update of one list entry (`board[row][col] = piece`). -/
def modifyAt (f : α → α) : Nat → List α → List α
  | _, [] => []
  | 0, x :: xs => f x :: xs
  | i + 1, x :: xs => x :: modifyAt f i xs

/-- The guarded write `if 0 <= row < 8 and 0 <= col < 8: board[row][col] = piece`. -/
def place (b : Board) (d : Detection) : Board :=
  if 0 ≤ d.row ∧ d.row < 8 ∧ 0 ≤ d.col ∧ d.col < 8 then
    modifyAt (fun rowL => rowL.set d.col.toNat (some (labelMap d.label)))
      d.row.toNat b
  else b

/-- The detection loop over the recognizer results. -/
def buildBoard (dets : List Detection) : Board :=
  dets.foldl place initBoard

/-- Python `str(empty)`. -/
def decimalDigits (e : Nat) : List Char := Nat.toDigits 10 e

/-- The FEN row serialization loop, with the running count of empty
cells. -/
def fenRowGo : List (Option Char) → Nat → List Char
  | [], e => if e = 0 then [] else decimalDigits e
  | none :: cs, e => fenRowGo cs (e + 1)
  | some c :: cs, e =>
    (if e = 0 then [] else decimalDigits e) ++ c :: fenRowGo cs 0

/-- One FEN row field. -/
def fenRow (cells : List (Option Char)) : List Char := fenRowGo cells 0

/-- The list `fen_rows`. -/
def fenRows (b : Board) : List (List Char) := b.map fenRow

/-- The join `fen_position = "/".join(fen_rows)`. -/
def fenPosition (b : Board) : List Char :=
  List.intercalate ['/'] (fenRows b)

/-- Squares encoded by a row field when every one-cell character (piece
letter or `?` placeholder) counts one square and a digit counts its
value. -/
def fieldSquares (f : List Char) : Nat :=
  (f.map fun c => if c.isDigit then c.toNat - 48 else 1).sum

/-- Claim-side reading of C10 (for comparison with the code): only actual
piece letters count one square, anything else counts none. -/
def claimFieldSquares (f : List Char) : Nat :=
  (f.map fun c => if c.isDigit then c.toNat - 48
    else if c ∈ pieceChars then 1 else 0).sum

theorem fieldSquares_decimalDigits :
    ∀ e, e < 10 → fieldSquares (decimalDigits e) = e := by decide

theorem slash_not_mem_decimalDigits :
    ∀ e, e < 10 → '/' ∉ decimalDigits e := by decide

theorem labelMap_ok (n : Nat) :
    labelMap n ≠ '/' ∧ (labelMap n).isDigit = false := by
  unfold labelMap
  rcases h : pieceChars.get? n with _ | c
  · exact ⟨by decide, by decide⟩
  · have hc : c ∈ pieceChars := List.get?_mem h
    have hall : ∀ x ∈ pieceChars, x ≠ '/' ∧ x.isDigit = false := by decide
    simpa using hall c hc

/-- Every piece character a board cell can hold. -/
def cellsOk (r : List (Option Char)) : Prop :=
  ∀ c : Char, some c ∈ r → c ≠ '/' ∧ c.isDigit = false

/-- The shape invariant of the recognizer board. -/
def boardOk (b : Board) : Prop :=
  b.length = 8 ∧ ∀ r ∈ b, r.length = 8 ∧ cellsOk r

theorem length_modifyAt (f : α → α) :
    ∀ (i : Nat) (l : List α), (modifyAt f i l).length = l.length := by
  intro i l
  induction l generalizing i with
  | nil => cases i <;> rfl
  | cons a as ih =>
    cases i with
    | zero => simp [modifyAt]
    | succ n => simp [modifyAt, ih]

theorem mem_modifyAt (f : α → α) :
    ∀ (i : Nat) (l : List α) (x : α), x ∈ modifyAt f i l →
      x ∈ l ∨ ∃ y ∈ l, x = f y := by
  intro i l
  induction l generalizing i with
  | nil =>
    intro x h
    cases i <;> simp [modifyAt] at h
  | cons a as ih =>
    intro x h
    cases i with
    | zero =>
      rcases List.mem_cons.mp h with h | h
      · exact Or.inr ⟨a, List.mem_cons_self a as, h⟩
      · exact Or.inl (List.mem_cons_of_mem a h)
    | succ n =>
      rcases List.mem_cons.mp h with h | h
      · exact Or.inl (h ▸ List.mem_cons_self a as)
      · rcases ih n x h with h | ⟨y, hy, hxy⟩
        · exact Or.inl (List.mem_cons_of_mem a h)
        · exact Or.inr ⟨y, List.mem_cons_of_mem a hy, hxy⟩

theorem boardOk_initBoard : boardOk initBoard := by
  constructor
  · simp [initBoard]
  · intro r hr
    have := List.eq_of_mem_replicate hr
    subst this
    refine ⟨by simp, ?_⟩
    intro c hc
    have := List.eq_of_mem_replicate hc
    simp at this

theorem boardOk_place {b : Board} (h : boardOk b) (d : Detection) :
    boardOk (place b d) := by
  unfold place
  split
  · refine ⟨by rw [length_modifyAt]; exact h.1, ?_⟩
    intro r hr
    rcases mem_modifyAt _ _ _ _ hr with hr | ⟨y, hy, hxy⟩
    · exact h.2 r hr
    · subst hxy
      obtain ⟨hylen, hyok⟩ := h.2 y hy
      refine ⟨by rw [List.length_set]; exact hylen, ?_⟩
      intro c hc
      rcases List.mem_or_eq_of_mem_set hc with hc | hc
      · exact hyok c hc
      · cases hc
        exact labelMap_ok d.label
  · exact h

theorem boardOk_foldl :
    ∀ (dets : List Detection) (b : Board), boardOk b →
      boardOk (dets.foldl place b)
  | [], _, h => h
  | d :: ds, b, h => boardOk_foldl ds (place b d) (boardOk_place h d)

theorem fieldSquares_nil : fieldSquares [] = 0 := rfl

theorem fieldSquares_append (a b : List Char) :
    fieldSquares (a ++ b) = fieldSquares a + fieldSquares b := by
  simp [fieldSquares]

theorem fenRowGo_squares :
    ∀ (cells : List (Option Char)) (e : Nat),
      e + cells.length ≤ 9 →
      (∀ c : Char, some c ∈ cells → (c.isDigit = false)) →
      fieldSquares (fenRowGo cells e) = e + cells.length := by
  intro cells
  induction cells with
  | nil =>
    intro e he _
    by_cases h0 : e = 0
    · simp [fenRowGo, h0, fieldSquares]
    · simp only [fenRowGo, h0, if_false, List.length_nil]
      rw [fieldSquares_decimalDigits e (by omega)]
      omega
  | cons cell cs ih =>
    intro e he hcells
    simp only [List.length_cons] at he ⊢
    cases cell with
    | none =>
      rw [show fenRowGo (none :: cs) e = fenRowGo cs (e + 1) from rfl]
      rw [ih (e + 1) (by omega) (fun c hc => hcells c (List.mem_cons_of_mem _ hc))]
      omega
    | some c =>
      have hdig : c.isDigit = false := hcells c (List.mem_cons_self _ _)
      have hrest := ih 0 (by omega)
        (fun x hx => hcells x (List.mem_cons_of_mem _ hx))
      rw [show fenRowGo (some c :: cs) e =
        (if e = 0 then [] else decimalDigits e) ++ c :: fenRowGo cs 0 from rfl]
      rw [fieldSquares_append]
      have hch : fieldSquares (c :: fenRowGo cs 0) =
          1 + fieldSquares (fenRowGo cs 0) := by
        simp [fieldSquares, hdig]
      rw [hch, hrest]
      by_cases h0 : e = 0
      · rw [if_pos h0, fieldSquares_nil]
        omega
      · rw [if_neg h0, fieldSquares_decimalDigits e (by omega)]
        omega

theorem fenRowGo_no_slash :
    ∀ (cells : List (Option Char)) (e : Nat),
      e + cells.length ≤ 9 →
      (∀ c : Char, some c ∈ cells → c ≠ '/') →
      '/' ∉ fenRowGo cells e := by
  intro cells
  induction cells with
  | nil =>
    intro e he _
    by_cases h0 : e = 0
    · simp [fenRowGo, h0]
    · simp only [fenRowGo, h0, if_false]
      exact slash_not_mem_decimalDigits e (by omega)
  | cons cell cs ih =>
    intro e he hcells
    simp only [List.length_cons] at he
    cases cell with
    | none =>
      exact ih (e + 1) (by omega) (fun c hc => hcells c (List.mem_cons_of_mem _ hc))
    | some c =>
      have hc : c ≠ '/' := hcells c (List.mem_cons_self _ _)
      have hrest := ih 0 (by omega) (fun x hx => hcells x (List.mem_cons_of_mem _ hx))
      rw [fenRowGo]
      intro hmem
      rcases List.mem_append.mp hmem with hmem | hmem
      · by_cases h0 : e = 0
        · simp [h0] at hmem
        · rw [if_neg h0] at hmem
          exact slash_not_mem_decimalDigits e (by omega) hmem
      · rcases List.mem_cons.mp hmem with hmem | hmem
        · exact hc hmem.symm
        · exact hrest hmem

/-- C10 counterexample: a detection with a label outside `0..11` (the DETR
model can emit any COCO label) places the `?` placeholder on the board;
the resulting first row field `?7` encodes only 7 squares when, as the
claim counts, only digits and piece LETTERS are counted. -/
theorem claimC10_counterexample :
    fenRows (buildBoard [⟨12, 0, 0⟩]) =
      [String.toList ("?7"), String.toList ("8"), String.toList ("8"),
       String.toList ("8"), String.toList ("8"), String.toList ("8"),
       String.toList ("8"), String.toList ("8")] ∧
    claimFieldSquares (String.toList ("?7")) = 7 ∧ (7 : Nat) ≠ 8 := by
  exact ⟨by decide, by decide, by decide⟩

/-- C10 (amended): for every detection list, the FEN position consists of
exactly 8 `/`-separated row fields (`splitOn` recovers exactly the 8
serialized rows), and in every row field the digits together with the
one-cell piece symbols — a piece letter or the `?` placeholder for an
unrecognized label — encode exactly 8 squares. -/
theorem claimC10_fen_shape (dets : List Detection) :
    (fenRows (buildBoard dets)).length = 8 ∧
    (∀ f ∈ fenRows (buildBoard dets), fieldSquares f = 8) ∧
    (fenPosition (buildBoard dets)).splitOn '/' = fenRows (buildBoard dets) := by
  have hok : boardOk (buildBoard dets) := boardOk_foldl dets initBoard boardOk_initBoard
  have hlen : (fenRows (buildBoard dets)).length = 8 := by
    simp [fenRows, hok.1]
  have hsq : ∀ f ∈ fenRows (buildBoard dets), fieldSquares f = 8 := by
    intro f hf
    rcases List.mem_map.mp hf with ⟨r, hr, rfl⟩
    obtain ⟨hrlen, hrok⟩ := hok.2 r hr
    have := fenRowGo_squares r 0 (by omega) (fun c hc => (hrok c hc).2)
    simpa [fenRow, hrlen] using this
  refine ⟨hlen, hsq, ?_⟩
  have hns : ∀ f ∈ fenRows (buildBoard dets), '/' ∉ f := by
    intro f hf
    rcases List.mem_map.mp hf with ⟨r, hr, rfl⟩
    obtain ⟨hrlen, hrok⟩ := hok.2 r hr
    have := fenRowGo_no_slash r 0 (by omega) (fun c hc => (hrok c hc).1)
    simpa [fenRow] using this
  have hne : fenRows (buildBoard dets) ≠ [] := by
    intro hz
    rw [hz] at hlen
    simp at hlen
  exact List.splitOn_intercalate (fenRows (buildBoard dets)) '/' hns hne

end HfAgent
